import Mathlib

/-!
Verification development for the `scalax` scale-computation library.

The TypeScript sources are shallowly embedded over exact rational
arithmetic (`ℚ` in place of IEEE doubles).  The embedding follows the
latest revision of each class:

* `Scale`           (src/scale/Scale.ts, the revision with the `ticks`
                     field, validated setters and `getPointAt`/`getPct`);
* `LinearScale`     (src/scale/LinearScale.ts, the revision with the
                     bounded 100-attempt escalation loop and
                     `_nextNiceFactor`);
* `LogarithmicScale` (src/scale/LogarithmicScale.ts, the revision with
                     `_wrap` / `_rawTicks` / `_prune` and the
                     interpolating `computePoint` / `computePct`);
* `RadialScale`     (src/scale/RadialScale.ts, the revision extending
                     `LinearScale` with the degree lattice and the
                     full-circle snap).

JavaScript numeric primitives are modelled exactly: `Math.floor` /
`Math.ceil` are `Int.floor` / `Int.ceil`, `Math.round` is
`fun x => ⌊x + 1/2⌋` (ties toward positive infinity, as in JS), the `%`
operator is the sign-preserving truncated remainder, and
`Number.prototype.toFixed(8)` is rounding to eight decimal places.
`Math.floor (Math.log10 v)` on a positive rational is computed by an
exact fuel-based search whose bracketing property is proved below.
`Math.log` / `Math.pow` appearing only inside the logarithmic
interpolation (whose exact transcendental values no claim depends on)
are abstracted as function parameters.
-/

set_option maxRecDepth 16384

namespace Scalax

/-- Errors surfaced by the library, named after the error kinds of the
specification; the sources throw `Error` objects with messages of the
corresponding kind. -/
inductive ScaleErr where
  | notReady
  | invalidArgument
  | preconditionFailed
  | outOfRange
  | computationFailed
deriving DecidableEq, Repr

instance {ε α : Type} [DecidableEq ε] [DecidableEq α] : DecidableEq (Except ε α) := fun x y =>
  match x, y with
  | .ok a, .ok b => decidable_of_iff (a = b) (by simp)
  | .error a, .error b => decidable_of_iff (a = b) (by simp)
  | .ok _, .error _ => isFalse (by simp)
  | .error _, .ok _ => isFalse (by simp)

/-- Truncation toward zero, the rounding JavaScript uses to define the
`%` remainder operator. -/
def truncQ (x : ℚ) : ℤ := if 0 ≤ x then ⌊x⌋ else ⌈x⌉

/-- The JavaScript `%` operator on numbers: `a - n * trunc (a / n)`,
a remainder carrying the sign of the dividend. -/
def jsMod (a n : ℚ) : ℚ := a - n * (truncQ (a / n) : ℚ)

/-- JavaScript `Math.round`: nearest integer, ties toward `+∞`. -/
def jsRound (x : ℚ) : ℤ := ⌊x + 1 / 2⌋

/-- JavaScript `Number(x.toFixed 8)`: the value rounded to eight
decimal places (ties toward `+∞`, as in the ECMAScript `toFixed`
specification), applied by `Scale.getTicks` to every tick. -/
def display8 (x : ℚ) : ℚ := (jsRound (x * 10 ^ 8) : ℚ) / 10 ^ 8

/-- JavaScript `Number(x.toFixed 9)`, used by
`LogarithmicScale.computePoint` on its interpolated result. -/
def display9 (x : ℚ) : ℚ := (jsRound (x * 10 ^ 9) : ℚ) / 10 ^ 9

/-- JavaScript `Array.prototype.indexOf`: index of the first
occurrence, `-1` when the element is absent. -/
def jsIndexOf (l : List ℚ) (x : ℚ) : ℤ :=
  if x ∈ l then (l.indexOf x : ℤ) else -1

/-- Fuel-based search for the greatest `e` with `b ^ e ≤ x`, entered
with `1 ≤ x`; each step divides the argument by the base. -/
def flogUp (b : ℚ) : ℕ → ℚ → ℤ
  | 0, _ => 0
  | fuel + 1, x => if x < b then 0 else flogUp b fuel (x / b) + 1

/-- Fuel-based search for the greatest `e` with `b ^ e ≤ x`, entered
with `0 < x < 1`; each step multiplies the argument by the base. -/
def flogDown (b : ℚ) : ℕ → ℚ → ℤ
  | 0, _ => 0
  | fuel + 1, x => if 1 ≤ x then 0 else flogDown b fuel (x * b) - 1

/-- Exact `Math.floor (log_b x)` for a rational base `b > 1` and a
positive rational `x`; the supplied fuel is proved sufficient in
`floorLogQ_spec`. -/
def floorLogQ (b x : ℚ) : ℤ :=
  if 1 ≤ x then flogUp b (x.num.natAbs * b.den + 1) x
  else flogDown b (x.den * b.den + 1) x

theorem flogUp_spec (b : ℚ) (hb : 1 < b) :
    ∀ (fuel : ℕ) (x : ℚ), 1 ≤ x → x < b ^ fuel →
      b ^ flogUp b fuel x ≤ x ∧ x < b ^ (flogUp b fuel x + 1) := by
  intro fuel
  induction fuel with
  | zero =>
    intro x hx hlt
    simp only [pow_zero] at hlt
    exact absurd hx (not_le.mpr hlt)
  | succ f ih =>
    intro x hx hlt
    by_cases hxb : x < b
    · simp only [flogUp, if_pos hxb]
      constructor
      · simpa using hx
      · simpa using hxb
    · push_neg at hxb
      have hb0 : (0 : ℚ) < b := lt_trans one_pos hb
      have hx1 : 1 ≤ x / b := (le_div_iff₀ hb0).mpr (by simpa using hxb)
      have hx2 : x / b < b ^ f := by
        rw [div_lt_iff₀ hb0]
        calc x < b ^ (f + 1) := hlt
        _ = b ^ f * b := by ring
      obtain ⟨h1, h2⟩ := ih (x / b) hx1 hx2
      simp only [flogUp, if_neg (not_lt.mpr hxb)]
      have hbne : b ≠ 0 := ne_of_gt hb0
      constructor
      · rw [zpow_add_one₀ hbne]
        calc b ^ flogUp b f (x / b) * b ≤ x / b * b :=
              mul_le_mul_of_nonneg_right h1 (le_of_lt hb0)
        _ = x := div_mul_cancel₀ x hbne
      · have : x / b * b < b ^ (flogUp b f (x / b) + 1) * b :=
          mul_lt_mul_of_pos_right h2 hb0
        rw [div_mul_cancel₀ x hbne] at this
        calc x < b ^ (flogUp b f (x / b) + 1) * b := this
        _ = b ^ (flogUp b f (x / b) + 1 + 1) := by
              simp [zpow_add_one₀ hbne]

theorem flogDown_spec (b : ℚ) (hb : 1 < b) :
    ∀ (fuel : ℕ) (x : ℚ), 0 < x → x < 1 → 1 ≤ x * b ^ fuel →
      b ^ flogDown b fuel x ≤ x ∧ x < b ^ (flogDown b fuel x + 1) := by
  intro fuel
  induction fuel with
  | zero =>
    intro x hx hlt hge
    simp only [pow_zero, mul_one] at hge
    exact absurd hlt (not_lt.mpr hge)
  | succ f ih =>
    intro x hx hlt hge
    have hb0 : (0 : ℚ) < b := lt_trans one_pos hb
    have hbne : b ≠ 0 := ne_of_gt hb0
    simp only [flogDown, if_neg (not_le.mpr hlt)]
    by_cases hxb : 1 ≤ x * b
    · have hrec : flogDown b f (x * b) = 0 := by
        cases f with
        | zero => rfl
        | succ g => simp [flogDown, if_pos hxb]
      rw [hrec]
      constructor
      · have h' := mul_le_mul_of_nonneg_right hxb (inv_nonneg.mpr hb0.le)
        rw [one_mul, mul_assoc, mul_inv_cancel₀ hbne, mul_one] at h'
        calc b ^ (0 - 1 : ℤ) = b⁻¹ := by rw [zero_sub, zpow_neg, zpow_one]
        _ ≤ x := h'
      · simpa using hlt
    · push_neg at hxb
      have h1 : 1 ≤ x * b * b ^ f := by
        have hpw : x * b ^ (f + 1) = x * b * b ^ f := by ring
        rwa [hpw] at hge
      obtain ⟨ha, ha2⟩ := ih (x * b) (mul_pos hx hb0) hxb h1
      set e := flogDown b f (x * b) with he
      constructor
      · have h' := mul_le_mul_of_nonneg_right ha (inv_nonneg.mpr hb0.le)
        rw [mul_assoc, mul_inv_cancel₀ hbne, mul_one] at h'
        calc b ^ (e - 1) = b ^ e * b⁻¹ := by
              rw [zpow_sub₀ hbne, zpow_one, div_eq_mul_inv]
        _ ≤ x := h'
      · have h' := mul_lt_mul_of_pos_right ha2 (inv_pos.mpr hb0)
        rw [mul_assoc, mul_inv_cancel₀ hbne, mul_one] at h'
        calc x < b ^ (e + 1) * b⁻¹ := h'
        _ = b ^ (e - 1 + 1) := by
              rw [sub_add_cancel, zpow_add_one₀ hbne, mul_assoc,
                mul_inv_cancel₀ hbne, mul_one]


theorem rat_mul_den (b : ℚ) : b * (b.den : ℚ) = (b.num : ℚ) := by
  have hd : ((b.den : ℚ)) ≠ 0 := by
    exact_mod_cast b.den_nz
  have h2 : (b.num : ℚ) / (b.den : ℚ) * (b.den : ℚ) = (b.num : ℚ) :=
    div_mul_cancel₀ _ hd
  rwa [Rat.num_div_den] at h2

theorem rat_den_lt_num (b : ℚ) (hb : 1 < b) : (b.den : ℚ) < (b.num : ℚ) := by
  have hden : (0 : ℚ) < (b.den : ℚ) := by
    exact_mod_cast Nat.pos_of_ne_zero b.den_nz
  calc (b.den : ℚ) = 1 * (b.den : ℚ) := (one_mul _).symm
  _ < b * (b.den : ℚ) := mul_lt_mul_of_pos_right hb hden
  _ = (b.num : ℚ) := rat_mul_den b

theorem one_add_inv_den_le (b : ℚ) (hb : 1 < b) : 1 + 1 / (b.den : ℚ) ≤ b := by
  have hden : (0 : ℚ) < (b.den : ℚ) := by
    exact_mod_cast Nat.pos_of_ne_zero b.den_nz
  have h1 : (b.den : ℤ) < b.num := by exact_mod_cast rat_den_lt_num b hb
  have h3 : (b.den : ℚ) + 1 ≤ (b.num : ℚ) := by
    have h2 : (b.den : ℤ) + 1 ≤ b.num := by omega
    exact_mod_cast h2
  have key : (1 + 1 / (b.den : ℚ)) * (b.den : ℚ) ≤ (b.num : ℚ) := by
    have he : (1 + 1 / (b.den : ℚ)) * (b.den : ℚ) = (b.den : ℚ) + 1 := by
      field_simp
    rw [he]
    exact h3
  have hb2 : 1 + 1 / (b.den : ℚ) ≤ (b.num : ℚ) / (b.den : ℚ) :=
    (le_div_iff₀ hden).mpr key
  rwa [Rat.num_div_den] at hb2

theorem two_le_pow_den (b : ℚ) (hb : 1 < b) : 2 ≤ b ^ b.den := by
  have hden : (0 : ℚ) < (b.den : ℚ) := by
    exact_mod_cast Nat.pos_of_ne_zero b.den_nz
  have h0 : (-2 : ℚ) ≤ 1 / (b.den : ℚ) := by
    have : (0 : ℚ) ≤ 1 / (b.den : ℚ) := by positivity
    linarith
  have h1 := one_add_mul_le_pow h0 b.den
  have h2 : (1 : ℚ) + (b.den : ℚ) * (1 / (b.den : ℚ)) = 2 := by
    rw [mul_one_div, div_self (ne_of_gt hden)]
    norm_num
  calc (2 : ℚ) = 1 + (b.den : ℚ) * (1 / (b.den : ℚ)) := h2.symm
  _ ≤ (1 + 1 / (b.den : ℚ)) ^ b.den := h1
  _ ≤ b ^ b.den :=
        pow_le_pow_left₀ (by positivity) (one_add_inv_den_le b hb) b.den

theorem succ_le_pow_den_mul (b : ℚ) (hb : 1 < b) (n : ℕ) :
    (n : ℚ) + 1 ≤ b ^ (b.den * n) := by
  have hn : n + 1 ≤ 2 ^ n := Nat.lt_two_pow n
  have h2 : ((n : ℚ)) + 1 ≤ 2 ^ n := by exact_mod_cast hn
  calc (n : ℚ) + 1 ≤ 2 ^ n := h2
  _ ≤ (b ^ b.den) ^ n :=
        pow_le_pow_left₀ (by norm_num) (two_le_pow_den b hb) n
  _ = b ^ (b.den * n) := (pow_mul b b.den n).symm

theorem le_num_of_one_le (x : ℚ) (hx : 1 ≤ x) : x ≤ (x.num : ℚ) := by
  have hden1 : (1 : ℚ) ≤ (x.den : ℚ) := by
    exact_mod_cast Nat.pos_of_ne_zero x.den_nz
  have hx0 : 0 < x := lt_of_lt_of_le one_pos hx
  calc x = x * 1 := (mul_one x).symm
  _ ≤ x * (x.den : ℚ) := mul_le_mul_of_nonneg_left hden1 hx0.le
  _ = (x.num : ℚ) := rat_mul_den x

theorem inv_den_le (x : ℚ) (hx : 0 < x) : 1 / (x.den : ℚ) ≤ x := by
  have hden : (0 : ℚ) < (x.den : ℚ) := by
    exact_mod_cast Nat.pos_of_ne_zero x.den_nz
  have hnum : (1 : ℚ) ≤ (x.num : ℚ) := by
    have h : (0 : ℤ) < x.num := Rat.num_pos.mpr hx
    exact_mod_cast h
  rw [div_le_iff₀ hden, rat_mul_den x]
  exact hnum

/-- The fuel supplied by `floorLogQ` brackets the input: the result is
the exact floor of the base-`b` logarithm of `x`. -/
theorem floorLogQ_spec (b x : ℚ) (hb : 1 < b) (hx : 0 < x) :
    b ^ floorLogQ b x ≤ x ∧ x < b ^ (floorLogQ b x + 1) := by
  by_cases h1 : 1 ≤ x
  · rw [floorLogQ, if_pos h1]
    apply flogUp_spec b hb _ x h1
    have hnum : x ≤ (x.num.natAbs : ℚ) := by
      have h := le_num_of_one_le x h1
      have h5 : (x.num.natAbs : ℚ) = (x.num : ℚ) := by
        rw [Int.cast_natAbs]
        exact_mod_cast abs_of_nonneg (Rat.num_pos.mpr hx).le
      rwa [← h5] at h
    have hbig := succ_le_pow_den_mul b hb x.num.natAbs
    calc x ≤ (x.num.natAbs : ℚ) := hnum
    _ < (x.num.natAbs : ℚ) + 1 := by linarith
    _ ≤ b ^ (b.den * x.num.natAbs) := hbig
    _ ≤ b ^ (x.num.natAbs * b.den + 1) := by
          apply pow_le_pow_right₀ (le_of_lt hb)
          rw [Nat.mul_comm]
          omega
  · push_neg at h1
    rw [floorLogQ, if_neg (not_le.mpr h1)]
    apply flogDown_spec b hb _ x hx h1
    have hp := inv_den_le x hx
    have hden : (0 : ℚ) < (x.den : ℚ) := by
      exact_mod_cast Nat.pos_of_ne_zero x.den_nz
    have hbig := succ_le_pow_den_mul b hb x.den
    have hstep : (x.den : ℚ) ≤ b ^ (x.den * b.den + 1) := by
      calc (x.den : ℚ) ≤ (x.den : ℚ) + 1 := by linarith
      _ ≤ b ^ (b.den * x.den) := hbig
      _ ≤ b ^ (x.den * b.den + 1) := by
            apply pow_le_pow_right₀ (le_of_lt hb)
            rw [Nat.mul_comm]
            omega
    have hxpos : 1 ≤ x * (x.den : ℚ) := by
      have h5 := mul_le_mul_of_nonneg_right hp hden.le
      rwa [one_div, inv_mul_cancel₀ (ne_of_gt hden)] at h5
    calc (1 : ℚ) ≤ x * (x.den : ℚ) := hxpos
    _ ≤ x * b ^ (x.den * b.den + 1) :=
          mul_le_mul_of_nonneg_left hstep hx.le

theorem floorLogQ_le (b x : ℚ) (hb : 1 < b) (hx : 0 < x) :
    b ^ floorLogQ b x ≤ x := (floorLogQ_spec b x hb hx).1

theorem lt_floorLogQ_succ (b x : ℚ) (hb : 1 < b) (hx : 0 < x) :
    x < b ^ (floorLogQ b x + 1) := (floorLogQ_spec b x hb hx).2

theorem jsMod_lt (a n : ℚ) (hn : 0 < n) : jsMod a n < n := by
  have hne : n ≠ 0 := ne_of_gt hn
  unfold jsMod truncQ
  by_cases h : 0 ≤ a / n
  · rw [if_pos h]
    have h2 := Int.lt_floor_add_one (a / n)
    have h3 := mul_lt_mul_of_pos_left h2 hn
    rw [mul_comm n (a / n), div_mul_cancel₀ a hne] at h3
    linarith
  · rw [if_neg h]
    have h2 := Int.le_ceil (a / n)
    have h3 := mul_le_mul_of_nonneg_left h2 hn.le
    rw [mul_comm n (a / n), div_mul_cancel₀ a hne] at h3
    linarith

theorem neg_lt_jsMod (a n : ℚ) (hn : 0 < n) : -n < jsMod a n := by
  have hne : n ≠ 0 := ne_of_gt hn
  unfold jsMod truncQ
  by_cases h : 0 ≤ a / n
  · rw [if_pos h]
    have h2 := Int.floor_le (a / n)
    have h3 := mul_le_mul_of_nonneg_left h2 hn.le
    rw [mul_comm n (a / n), div_mul_cancel₀ a hne] at h3
    linarith
  · rw [if_neg h]
    have h2 := Int.ceil_lt_add_one (a / n)
    have h3 := mul_lt_mul_of_pos_left h2 hn
    have h4 : n * (a / n + 1) = a + n := by
      field_simp
    rw [h4] at h3
    linarith

theorem jsMod_nonneg (a n : ℚ) (hn : 0 < n) (ha : 0 ≤ a) : 0 ≤ jsMod a n := by
  have hne : n ≠ 0 := ne_of_gt hn
  have hdiv : 0 ≤ a / n := div_nonneg ha hn.le
  unfold jsMod truncQ
  rw [if_pos hdiv]
  have h2 := Int.floor_le (a / n)
  have h3 := mul_le_mul_of_nonneg_left h2 hn.le
  rw [mul_comm n (a / n), div_mul_cancel₀ a hne] at h3
  linarith

theorem sorted_le_nodup_lt (l : List ℚ) (hs : l.Sorted (· ≤ ·))
    (hn : l.Nodup) : l.Sorted (· < ·) :=
  (List.Pairwise.and hs hn).imp fun h => lt_of_le_of_ne h.1 h.2

/-!  LinearScale (src/scale/LinearScale.ts, latest revision). -/

/-- Model of `LinearScale._nearest`: snaps `value` to a nice multiplier in
`{1,2,5,10}` times the power of ten of its magnitude; `roundUp = true`
compares strictly against the thresholds `{1.5,3,7,10}`, otherwise
non-strictly against `{1,2,5,10}`.  `compute` only applies this to
non-negative quantities; at `0` the source produces `0` (the candidate
loop falls through on `NaN`), which the embedding returns for every
non-positive argument. -/
def linNearest (value : ℚ) (roundUp : Bool) : ℚ :=
  if value ≤ 0 then 0
  else
    let exp := floorLogQ 10 value
    let val := value / (10 : ℚ) ^ exp
    let near : ℚ :=
      if roundUp then
        if val < 3 / 2 then 1 else if val < 3 then 2
        else if val < 7 then 5 else if val < 10 then 10 else 0
      else
        if val ≤ 1 then 1 else if val ≤ 2 then 2
        else if val ≤ 5 then 5 else if val ≤ 10 then 10 else 0
    near * (10 : ℚ) ^ exp

/-- Model of `LinearScale._nextNiceFactor`: the factor `2/val`, `5/val` or
`10/val` lifting the current step to the next nice step. -/
def linNextNiceFactor (step : ℚ) : ℚ :=
  let exp := floorLogQ 10 step
  let val := step / (10 : ℚ) ^ exp
  if val < 3 / 2 then 2 / val else if val < 7 / 2 then 5 / val else 10 / val

/-- The computed state written by a successful `LinearScale.compute`. -/
structure LinComputed where
  stepSize : ℚ
  min : ℚ
  max : ℚ
  range : ℚ
  tickAmount : ℤ
  ticks : List ℚ
deriving DecidableEq, Repr

/-- Model of `LinearScale._ticks`: the arithmetic tick sequence
`min, min + step, …` of length `tickAmount`. -/
def linTicks (tickAmount : ℤ) (stepSize minV : ℚ) : List ℚ :=
  (List.range tickAmount.toNat).map fun i : ℕ => minV + (i : ℚ) * stepSize

/-- The `do … while (++attempts < 100)` escalation loop of
`LinearScale.compute`; the fuel counts the remaining loop bodies, and
exhausting it is the source's `attempts === 100` fatal error. -/
def linLoop (lower upper : ℚ) (maxTicks : ℤ) : ℕ → ℚ → Except ScaleErr LinComputed
  | 0, _ => .error .computationFailed
  | fuel + 1, step =>
    let minV := (⌊lower / step⌋ : ℚ) * step
    let maxV := (⌈upper / step⌉ : ℚ) * step
    let range := maxV - minV
    let ta := jsRound (range / step) + 1
    if ta ≤ maxTicks then
      .ok ⟨step, minV, maxV, range, ta, linTicks ta step minV⟩
    else
      linLoop lower upper maxTicks fuel (step * linNextNiceFactor step)

/-- Model of `LinearScale.compute` for a configuration with all fields present:
nice span, initial step clamped below by `precision`, then the bounded
escalation loop. -/
def linCompute (lower upper precision : ℚ) (maxTicks : ℤ) :
    Except ScaleErr LinComputed :=
  let niceRange := linNearest (upper - lower) false
  let step0 := max (linNearest (niceRange / ((maxTicks : ℚ) - 1)) true) precision
  linLoop lower upper maxTicks 100 step0

/-- The percentage normalisation shared by `computePoint` overloads:
values above `1` are read as percentages out of `100`. -/
def jsNormPct (pct : ℚ) : ℚ := if 1 < pct then pct / 100 else pct

/-- Model of `LinearScale.computePoint`: rejects raw percentages outside
`[0, 100]`, otherwise interpolates linearly from `min`. -/
def linComputePoint (r : LinComputed) (pct : ℚ) : Except ScaleErr ℚ :=
  if pct < 0 ∨ 100 < pct then .error .invalidArgument
  else .ok (r.range * jsNormPct pct + r.min)

/-- The `ref` argument of `computePct` / `getPct`. -/
inductive Ref where
  | min
  | max
deriving DecidableEq, Repr

/-- Model of `LinearScale.computePct`: rejects values outside `[min, max]`,
otherwise the linear position, flipped for `ref = max`. -/
def linComputePct (r : LinComputed) (value : ℚ) (ref : Ref) : Except ScaleErr ℚ :=
  if value < r.min ∨ r.max < value then .error .outOfRange
  else
    let pct := (value - r.min) / r.range
    .ok (if ref = .max then 1 - pct else pct)

/-- Model of `Scale.getTicks` on a computed linear scale: the stored ticks
rounded to eight decimal places. -/
def linGetTicks (r : LinComputed) : List ℚ := r.ticks.map display8

/-!  RadialScale (src/scale/RadialScale.ts, latest revision; it extends
`LinearScale`, overriding `_nearest`, `compute`, `computeTicks`,
`computePoint` and `computePct`). -/

/-- The computed state written by a successful `RadialScale.compute`
(the radial `compute` does not store a tick list; ticks are derived by
`computeTicks`). -/
structure RadComputed where
  stepSize : ℚ
  min : ℚ
  max : ℚ
  range : ℚ
  tickAmount : ℤ
deriving DecidableEq, Repr

/-- Model of `RadialScale._nearest`: the closest entry of the curated degree
set `{0,1,2,5,10,15,30,45,60,90,120,180,360}`, ties resolved toward
the later (larger) candidate, exactly as the source's
`else if (diff === minDiff)` branch. -/
def radialNearestDeg (value : ℚ) : ℚ :=
  (([0, 1, 2, 5, 10, 15, 30, 45, 60, 90, 120, 180, 360] : List ℚ).foldl
    (fun acc d => if |value - d| ≤ acc.2 then (d, |value - d|) else acc)
    (0, |value - 0|)).1

/-- The escalation ladder of `RadialScale.compute`: the entry after the
current step in `[15,30,45,60,90,120,180,360]`; a step not on the
ladder (JS `indexOf` gives `-1`) restarts at `15`, and `360` is
terminal. -/
def radialNextStep (step : ℚ) : ℚ :=
  let nextSteps : List ℚ := [15, 30, 45, 60, 90, 120, 180, 360]
  let idx := jsIndexOf nextSteps step
  if idx < 7 then nextSteps.getD (idx + 1).toNat 360 else 360

/-- The `do … while (true)` loop of `RadialScale.compute`, including
the full-circle snap (`max - min >= 355` forces `[0, 360]` and drops
the duplicated wrap tick).  The source loop is unbounded; the fuel
(always called with `100`) models it, and every configuration the
source terminates on is decided within a dozen iterations because the
ladder reaches the terminal step `360`. -/
def radialLoop (lower upper : ℚ) (maxTicks : ℤ) : ℕ → ℚ → Except ScaleErr RadComputed
  | 0, _ => .error .computationFailed
  | fuel + 1, step =>
    let minV := (⌊lower / step⌋ : ℚ) * step
    let maxV := (⌈upper / step⌉ : ℚ) * step
    let range := maxV - minV
    let ta := jsRound (range / step) + 1
    if maxV - minV ≥ 355 then
      if ta - 1 ≤ maxTicks then .ok ⟨step, 0, 360, 360, ta - 1⟩
      else radialLoop lower upper maxTicks fuel (radialNextStep step)
    else
      if ta ≤ maxTicks then .ok ⟨step, minV, maxV, range, ta⟩
      else radialLoop lower upper maxTicks fuel (radialNextStep step)

/-- Model of `RadialScale.compute` for a configuration with all fields present. -/
def radialCompute (lower upper precision : ℚ) (maxTicks : ℤ) :
    Except ScaleErr RadComputed :=
  let niceRange := min (upper - lower) 360
  let s1 := radialNearestDeg (niceRange / ((maxTicks : ℚ) - 1))
  let step0 := max s1 precision
  radialLoop lower upper maxTicks 100 step0

/-- The constructor normalisation of `RadialScale`: both angles are
reduced by the signed `% 360`, the upper bound is lifted by `360` when
it falls below the lower one, and an equal pair denotes the full
circle `[0, 360]`; `setBounds` then stores the sorted pair. -/
def radialNormBounds (low high : ℚ) : ℚ × ℚ :=
  let l := jsMod low 360
  let h := jsMod high 360 + (if jsMod high 360 < l then (360 : ℚ) else 0)
  if l = h then (0, 360) else (min l h, max l h)

/-- Model of `new RadialScale(maxTicks, precision, low, high).run()`:
normalisation followed by `compute`. -/
def radialScaleRun (maxTicks : ℤ) (precision low high : ℚ) :
    Except ScaleErr RadComputed :=
  let lh := radialNormBounds low high
  radialCompute lh.1 lh.2 precision maxTicks

/-- Model of `RadialScale.computeTicks`: the inherited arithmetic sequence with
every tick reduced by the signed `% 360`. -/
def radialComputeTicks (r : RadComputed) : List ℚ :=
  (linTicks r.tickAmount r.stepSize r.min).map fun t => jsMod t 360

/-- Model of `Scale.getTicks` on a computed radial scale. -/
def radialGetTicks (r : RadComputed) : List ℚ :=
  (radialComputeTicks r).map display8

/-- Model of `RadialScale.computePoint`: the inherited linear point (with its
percentage validation) wrapped into `[0, 360)` by the double modulo. -/
def radialComputePoint (r : RadComputed) (pct : ℚ) : Except ScaleErr ℚ :=
  if pct < 0 ∨ 100 < pct then .error .invalidArgument
  else .ok (jsMod (jsMod (r.range * jsNormPct pct + r.min) 360 + 360) 360)

/-- Model of `RadialScale.computePct`: the wrapped position
`((value - min) % 360 + 360) % 360 / range`, flipped for `ref = max`;
the override performs no range check and never fails. -/
def radialComputePct (r : RadComputed) (value : ℚ) (ref : Ref) : ℚ :=
  let pct := jsMod (jsMod (value - r.min) 360 + 360) 360 / r.range
  if ref = .max then 1 - pct else pct

/-- Model of `Scale.getPct` on a computed (hence ready) radial scale: the
assert passes and `computePct` returns a plain value. -/
def radialGetPct (r : RadComputed) (value : ℚ) (ref : Ref) : Except ScaleErr ℚ :=
  .ok (radialComputePct r value ref)

/-!  LogarithmicScale (src/scale/LogarithmicScale.ts, latest
revision).  The source computes `Math.floor`, `Math.ceil` and
`Math.round` of `_base v = log |v| / log base`; these are embedded
exactly through `floorLogQ`.  The rounding of the logarithm uses the
identity `round t = ⌊(2 t + 1) / 2⌋`, i.e. `⌊log_b (v² b)⌋ / 2`
rounded down, which agrees with JavaScript's half-up `Math.round`. -/

/-- Model of `Math.floor (LogarithmicScale._base v)`; the source never takes it
at `0` on the paths embedded here, where the convention `0` applies. -/
def floorLogB (b v : ℚ) : ℤ := if v = 0 then 0 else floorLogQ b |v|

/-- Model of `Math.ceil (LogarithmicScale._base v)`, via
`ceil t = -floor (-t)` and `log (1/x) = -log x`. -/
def ceilLogB (b v : ℚ) : ℤ := if v = 0 then 0 else -floorLogQ b (1 / |v|)

/-- Model of `Math.round (LogarithmicScale._base v)`: half-up rounding of the
base-`b` logarithm, computed exactly as `⌊⌊log_b (v² b)⌋ / 2⌋`. -/
def roundLogB (b v : ℚ) : ℤ :=
  if v = 0 then 0 else Int.fdiv (floorLogQ b (v * v * b)) 2

/-- The local `bound` closure of `LogarithmicScale._wrap`: the power
of `b` at the floored or ceiled exponent of `v`, never below the
precision exponent. -/
def logWrapBound (b : ℚ) (expPrec : ℤ) (v : ℚ) (dirCeil : Bool) : ℚ :=
  b ^ max expPrec (if dirCeil then ceilLogB b v else floorLogB b v)

/-- Model of `LogarithmicScale._wrap`: bounds wrapped outward onto the power
lattice of `b`. -/
def logWrap (b lower upper precision : ℚ) : ℚ × ℚ :=
  let expPrec := roundLogB b precision
  let minV :=
    if lower < 0 then -logWrapBound b expPrec lower true
    else if 0 < lower then logWrapBound b expPrec lower false else 0
  let maxV :=
    if 0 < upper then logWrapBound b expPrec upper true
    else if upper < 0 then -logWrapBound b expPrec upper false else 0
  (minV, maxV)

/-- The `addRange` closure of `LogarithmicScale._rawTicks`: the ticks
`sign * b ^ e` for `e` from `expMin` to `toExp` that fall inside
`[minV, maxV]`. -/
def logAddRange (b sign : ℚ) (expMin toExp : ℤ) (minV maxV : ℚ) : List ℚ :=
  ((List.range (toExp + 1 - expMin).toNat).map fun i : ℕ => expMin + (i : ℤ)).filterMap
    fun e =>
      let tick := sign * b ^ e
      if minV ≤ tick ∧ tick ≤ maxV then some tick else none

/-- Model of `LogarithmicScale._rawTicks`: negative-side powers, the zero tick
for zero-crossing or zero-adjacent ranges, positive-side powers;
deduplicated (the JS `Set`) and sorted ascending. -/
def logRawTicks (b lower upper precision : ℚ) : List ℚ :=
  let mm := logWrap b lower upper precision
  let expMin := roundLogB b precision
  let negT :=
    if mm.1 < 0 then logAddRange b (-1) expMin (roundLogB b (-mm.1)) mm.1 mm.2
    else []
  let zeroT :=
    if (lower ≤ 0 ∧ 0 ≤ upper) ∨ min |lower| |upper| < precision then [(0 : ℚ)]
    else []
  let posT :=
    if 0 < mm.2 then logAddRange b 1 expMin (roundLogB b mm.2) mm.1 mm.2
    else []
  ((negT ++ zeroT ++ posT).dedup).insertionSort (· ≤ ·)

/-- Model of `LogarithmicScale._prune`: regenerate with coarser precision until
at most `maxTicks` ticks remain; the fuel is the source's literal
`attempts < 100` bound, and exhausting it is the fatal
unable-to-reduce-tick-count error. -/
def logPrune (b lower upper : ℚ) (maxTicks : ℤ) : ℕ → ℚ → Except ScaleErr (List ℚ)
  | 0, _ => .error .computationFailed
  | fuel + 1, prec =>
    let ticks := logRawTicks b lower upper prec
    if (ticks.length : ℤ) ≤ maxTicks then .ok ticks
    else logPrune b lower upper maxTicks fuel (b ^ (roundLogB b prec + 1))

/-- The computed state written by a successful
`LogarithmicScale.compute` (`stepSize` stays unset). -/
structure LogComputed where
  ticks : List ℚ
  tickAmount : ℤ
  min : ℚ
  max : ℚ
  range : ℚ
deriving DecidableEq, Repr

/-- Model of `LogarithmicScale.compute` for a configuration with all fields
present. -/
def logCompute (b lower upper precision : ℚ) (maxTicks : ℤ) :
    Except ScaleErr LogComputed :=
  (logPrune b lower upper maxTicks 100 precision).map fun ticks =>
    ⟨ticks, (ticks.length : ℤ), ticks.headD 0, ticks.getLastD 0,
      ticks.getLastD 0 - ticks.headD 0⟩

/-- Model of `Scale.getTicks` on a computed logarithmic scale. -/
def logGetTicks (L : LogComputed) : List ℚ := L.ticks.map display8

/-- Model of `Number.EPSILON`, the guard added before taking logarithms. -/
def epsQ : ℚ := 1 / 2 ^ 52

/-- The tick positions `i / (n - 1)` (`ticks.map ((_, i) => i/(n-1))`). -/
def logPositions (ticks : List ℚ) : List ℚ :=
  (List.range ticks.length).map fun i : ℕ => (i : ℚ) / ((ticks.length : ℚ) - 1)

/-- The `findIndex` bracket search shared by `computePct` and
`computePoint`: the first `i` with `i < n - 1` and
`l[i] ≤ v ≤ l[i+1]`, `-1` when none exists. -/
def logFindBracket (l : List ℚ) (v : ℚ) : ℤ :=
  match (List.range l.length).find? (fun i =>
      decide (i + 1 < l.length) && decide (l.getD i 0 ≤ v) &&
        decide (v ≤ l.getD (i + 1) 0)) with
  | some i => (i : ℤ)
  | none => -1

/-- Model of `LogarithmicScale.computePct`.  `lg` abstracts `Math.log`, whose
transcendental values the embedding cannot (and, for the claims below,
need not) compute; every other operation is exact. -/
def logComputePct (lg : ℚ → ℚ) (b : ℚ) (L : LogComputed) (value : ℚ)
    (ref : Ref) : Except ScaleErr ℚ :=
  let ticks := L.ticks
  let n := ticks.length
  let zeroIndex := jsIndexOf ticks 0
  if value < L.min ∨ L.max < value then .error .outOfRange
  else if zeroIndex ≠ -1 ∧ value = 0 then
    .ok |(if ref = .max then (1 : ℚ) else 0) - (zeroIndex : ℚ) / ((n : ℚ) - 1)|
  else
    let positions := logPositions ticks
    let lgb := fun v => lg (|v| + epsQ) / lg b
    let i0 := logFindBracket ticks value
    let pos :=
      if i0 = -1 then
        if value ≤ ticks.headD 0 then (0 : ℚ)
        else if ticks.getLastD 0 ≤ value then 1
        else if zeroIndex ≠ -1 then
          if value < 0 then positions.getD (max 0 (zeroIndex - 1)).toNat 0
          else positions.getD (min ((n : ℤ) - 1) (zeroIndex + 1)).toNat 0
        else if value < ticks.headD 0 then 0 else 1
      else
        let a := ticks.getD i0.toNat 0
        let c := ticks.getD (i0 + 1).toNat 0
        let t :=
          if |lgb c - lgb a| < 1 / 10 ^ 15 then 0
          else (lgb value - lgb a) / (lgb c - lgb a)
        positions.getD i0.toNat 0 +
          t * (positions.getD (i0 + 1).toNat 0 - positions.getD i0.toNat 0)
    .ok (if ref = .max then 1 - pos else pos)

/-- Model of `LogarithmicScale.computePoint`.  `lg` abstracts `Math.log` and
`ex` abstracts `Math.pow base`; validation, bracket search and the
final nine-decimal rounding are exact.  In the source, the
`zeroIndex` branch of the fallback is an expression statement whose
value is discarded, so control falls through to `return ticks[0]`,
which the embedding mirrors. -/
def logComputePoint (lg ex : ℚ → ℚ) (b : ℚ) (L : LogComputed) (pct : ℚ) :
    Except ScaleErr ℚ :=
  let ticks := L.ticks
  let zeroIndex := jsIndexOf ticks 0
  let p := jsNormPct pct
  if p < 0 ∨ 1 < p then .error .invalidArgument
  else
    let positions := logPositions ticks
    let res :=
      if zeroIndex ≠ -1 ∧ p = positions.getD zeroIndex.toNat 0 then (0 : ℚ)
      else
        let i0 := logFindBracket positions p
        if i0 = -1 then
          if p ≤ 0 then ticks.headD 0
          else if 1 ≤ p then ticks.getLastD 0
          else ticks.headD 0
        else
          let a := ticks.getD i0.toNat 0
          let c := ticks.getD (i0 + 1).toNat 0
          let pa := positions.getD i0.toNat 0
          let pb := positions.getD (i0 + 1).toNat 0
          let t := if |pb - pa| < 1 / 10 ^ 15 then 0 else (p - pa) / (pb - pa)
          let sign : ℚ := if a < 0 ∧ c < 0 then -1 else 1
          let lgb := fun x => lg (|x| + epsQ) / lg b
          display9 (sign * (ex (lgb a + t * (lgb c - lgb a)) - epsQ))
    .ok res

/-!  The abstract `Scale` class (src/scale/Scale.ts, latest revision):
configuration, computed snapshot, the `is` readiness flag, setters,
`run` and the assert-guarded accessors.  `compute` is subclass
specific; it is modelled as a parameter describing, for the current
configuration, whether the pass succeeds with a full snapshot, returns
`false` (incomplete configuration; the three subclasses return `false`
before touching any field), or throws after partially mutating the
snapshot (the escalation and pruning failures) — in JavaScript the
assignment `this.is = this.compute(opts)` is then skipped, so `is`
keeps its previous value. -/

/-- The configuration fields of `Scale` (plus the `base` of
`LogarithmicScale`); optional fields start `undefined`. -/
structure ScaleConfig where
  precision : ℚ
  lowerBound : Option ℚ
  upperBound : Option ℚ
  maxTicks : Option ℤ
  base : ℚ
deriving DecidableEq, Repr

/-- The computed snapshot fields of `Scale`; all start `undefined`. -/
structure ComputedSnap where
  min : Option ℚ
  max : Option ℚ
  stepSize : Option ℚ
  tickAmount : Option ℤ
  range : Option ℚ
  ticks : Option (List ℚ)
deriving DecidableEq, Repr

/-- Behaviour of one `compute()` call on a given configuration. -/
inductive ComputeResult where
  | success (c : ComputedSnap)
  | retFalse
  | threw (f : ComputedSnap → ComputedSnap)

/-- The full mutable state of a `Scale` instance. -/
structure ScaleState where
  config : ScaleConfig
  computed : ComputedSnap
  is : Bool

/-- The freshly constructed state: `precision = 1` (the field
initialiser), everything else unset, not ready. -/
def initScaleState : ScaleState :=
  ⟨⟨1, none, none, none, 10⟩, ⟨none, none, none, none, none, none⟩, false⟩

/-- Model of `Scale.setBounds`: stores the sorted pair and clears readiness. -/
def setBoundsS (low high : ℚ) (s : ScaleState) : ScaleState :=
  { s with
    config := { s.config with
      lowerBound := some (min low high), upperBound := some (max low high) }
    is := false }

/-- Model of `Scale.setMaxTicks`: rejects values `≤ 1` before mutating,
otherwise stores the rounded count and clears readiness. -/
def setMaxTicksS (maxTicks : ℚ) (s : ScaleState) : ScaleState × Option ScaleErr :=
  if maxTicks ≤ 1 then (s, some .invalidArgument)
  else ({ s with
    config := { s.config with maxTicks := some (jsRound maxTicks) }
    is := false }, none)

/-- Model of `Scale.setPrecision`: rejects values `≤ 0` before mutating. -/
def setPrecisionS (precision : ℚ) (s : ScaleState) : ScaleState × Option ScaleErr :=
  if precision ≤ 0 then (s, some .invalidArgument)
  else ({ s with
    config := { s.config with precision := precision }
    is := false }, none)

/-- Model of `LogarithmicScale.setBase`: rejects values `≤ 1` before mutating. -/
def setBaseS (base : ℚ) (s : ScaleState) : ScaleState × Option ScaleErr :=
  if base ≤ 1 then (s, some .invalidArgument)
  else ({ s with
    config := { s.config with base := base }
    is := false }, none)

/-- Model of `Scale.centerAt`: requires both bounds, then recenters them
symmetrically around `value` and clears readiness. -/
def centerAtS (value : ℚ) (s : ScaleState) : ScaleState × Option ScaleErr :=
  if s.config.lowerBound.isSome ∧ s.config.upperBound.isSome then
    let l := s.config.lowerBound.getD 0
    let u := s.config.upperBound.getD 0
    let a := max |value - l| |value - u|
    ({ s with
      config := { s.config with
        lowerBound := some (value - a), upperBound := some (value + a) }
      is := false }, none)
  else (s, some .preconditionFailed)

/-- Model of `Scale.run`: `this.is = this.compute(opts)`, throwing
`ComputationFailed` when `compute` returns `false`, and propagating a
thrown computation error with `is` untouched (the assignment is
skipped) and the snapshot left as `compute` mutated it. -/
def scaleRun (cf : ScaleConfig → ComputeResult) (s : ScaleState) :
    ScaleState × Option ScaleErr :=
  match cf s.config with
  | .success c => ({ s with computed := c, is := true }, none)
  | .retFalse => ({ s with is := false }, some .computationFailed)
  | .threw f => ({ s with computed := f s.computed }, some .computationFailed)

/-- The `new Scale(low, high, maxTicks, precision)` constructor:
field initialisers, then the conditional setter calls; a throwing
setter aborts construction. -/
def scaleNew (low high maxTicks precision : Option ℚ) : ScaleState × Option ScaleErr :=
  let s0 := initScaleState
  let s1 := match low, high with
    | some l, some h => setBoundsS l h s0
    | _, _ => s0
  match maxTicks with
  | some mt =>
    match setMaxTicksS mt s1 with
    | (s2, none) =>
      match precision with
      | some p => setPrecisionS p s2
      | none => (s2, none)
    | (s2, some e) => (s2, some e)
  | none =>
    match precision with
    | some p => setPrecisionS p s1
    | none => (s1, none)

/-- Model of `Scale.assert` guarding every query accessor. -/
def scaleAssert (s : ScaleState) : Option ScaleErr :=
  if s.is then none else some .notReady

/-- Model of `Scale.getMinimum`. -/
def getMinimumS (s : ScaleState) : Except ScaleErr ℚ :=
  if s.is then .ok (s.computed.min.getD 0) else .error .notReady

/-- Model of `Scale.getMaximum`. -/
def getMaximumS (s : ScaleState) : Except ScaleErr ℚ :=
  if s.is then .ok (s.computed.max.getD 0) else .error .notReady

/-- Model of `Scale.getExtrema`. -/
def getExtremaS (s : ScaleState) : Except ScaleErr (ℚ × ℚ) :=
  if s.is then .ok (s.computed.min.getD 0, s.computed.max.getD 0)
  else .error .notReady

/-- Model of `Scale.getStepSize`. -/
def getStepSizeS (s : ScaleState) : Except ScaleErr ℚ :=
  if s.is then .ok (s.computed.stepSize.getD 0) else .error .notReady

/-- Model of `Scale.getTickAmount`. -/
def getTickAmountS (s : ScaleState) : Except ScaleErr ℤ :=
  if s.is then .ok (s.computed.tickAmount.getD 0) else .error .notReady

/-- Model of `Scale.getRange`. -/
def getRangeS (s : ScaleState) : Except ScaleErr ℚ :=
  if s.is then .ok (s.computed.range.getD 0) else .error .notReady

/-- Model of `Scale.getTicks`: the stored ticks rounded to eight decimals. -/
def getTicksS (s : ScaleState) : Except ScaleErr (List ℚ) :=
  if s.is then .ok ((s.computed.ticks.getD []).map display8)
  else .error .notReady

/-- Model of `Scale.getTicksReverse`. -/
def getTicksReverseS (s : ScaleState) : Except ScaleErr (List ℚ) :=
  if s.is then .ok (((s.computed.ticks.getD []).map display8).reverse)
  else .error .notReady

/-- Model of `Scale.getPointAt`: assert, then the subclass `computePoint`
(passed as a parameter at this abstract level). -/
def getPointAtS (cp : ComputedSnap → ℚ → Except ScaleErr ℚ) (s : ScaleState)
    (pct : ℚ) : Except ScaleErr ℚ :=
  if s.is then cp s.computed pct else .error .notReady

/-- Model of `Scale.getPct`: assert, then the subclass `computePct`. -/
def getPctS (cp : ComputedSnap → ℚ → Ref → Except ScaleErr ℚ) (s : ScaleState)
    (value : ℚ) (ref : Ref) : Except ScaleErr ℚ :=
  if s.is then cp s.computed value ref else .error .notReady

/-- States reachable through the public interface from a fresh
instance. -/
inductive Reachable (cf : ScaleConfig → ComputeResult) : ScaleState → Prop where
  | init : Reachable cf initScaleState
  | setBounds (l h : ℚ) {s : ScaleState} :
      Reachable cf s → Reachable cf (setBoundsS l h s)
  | setMaxTicks (mt : ℚ) {s : ScaleState} :
      Reachable cf s → Reachable cf (setMaxTicksS mt s).1
  | setPrecision (p : ℚ) {s : ScaleState} :
      Reachable cf s → Reachable cf (setPrecisionS p s).1
  | setBase (bs : ℚ) {s : ScaleState} :
      Reachable cf s → Reachable cf (setBaseS bs s).1
  | centerAt (v : ℚ) {s : ScaleState} :
      Reachable cf s → Reachable cf (centerAtS v s).1
  | run {s : ScaleState} :
      Reachable cf s → Reachable cf (scaleRun cf s).1

/-- The readiness invariant: a ready scale's configuration is one its
`compute` succeeds on (`compute` is a pure function of the
configuration, so re-running it cannot fail). -/
def ScaleInv (cf : ScaleConfig → ComputeResult) (s : ScaleState) : Prop :=
  s.is = true → ∃ c, cf s.config = .success c

theorem reachable_inv (cf : ScaleConfig → ComputeResult) (s : ScaleState)
    (h : Reachable cf s) : ScaleInv cf s := by
  induction h with
  | init => intro h; simp [initScaleState] at h
  | setBounds l h hr ih => intro his; simp [setBoundsS] at his
  | setMaxTicks mt hr ih =>
    intro his
    unfold setMaxTicksS at his ⊢
    by_cases hc : mt ≤ 1
    · rw [if_pos hc] at his ⊢; exact ih his
    · rw [if_neg hc] at his; simp at his
  | setPrecision p hr ih =>
    intro his
    unfold setPrecisionS at his ⊢
    by_cases hc : p ≤ 0
    · rw [if_pos hc] at his ⊢; exact ih his
    · rw [if_neg hc] at his; simp at his
  | setBase bs hr ih =>
    intro his
    unfold setBaseS at his ⊢
    by_cases hc : bs ≤ 1
    · rw [if_pos hc] at his ⊢; exact ih his
    · rw [if_neg hc] at his; simp at his
  | centerAt v hr ih =>
    intro his
    rename_i st
    unfold centerAtS at his ⊢
    by_cases hc : st.config.lowerBound.isSome ∧ st.config.upperBound.isSome
    · rw [if_pos hc] at his
      simp at his
    · rw [if_neg hc] at his ⊢
      exact ih his
  | run hr ih =>
    intro his
    rename_i st
    unfold scaleRun at his
    rcases hc : cf st.config with c | _ | f <;> rw [hc] at his <;> simp at his
    · unfold scaleRun
      rw [hc]
      exact ⟨c, hc⟩
    · obtain ⟨c, hcc⟩ := ih his
      rw [hcc] at hc
      cases hc

/-!  Shared lemmas about the linear escalation loop. -/

theorem linNextNiceFactor_gt_one (s : ℚ) (hs : 0 < s) :
    1 < linNextNiceFactor s := by
  simp only [linNextNiceFactor]
  have h10 : (1 : ℚ) < 10 := by norm_num
  obtain ⟨hle, hlt⟩ := floorLogQ_spec 10 s h10 hs
  set e := floorLogQ 10 s with he
  have hpow : (0 : ℚ) < (10 : ℚ) ^ e := zpow_pos (by norm_num) e
  have hval1 : 1 ≤ s / 10 ^ e := (le_div_iff₀ hpow).mpr (by simpa using hle)
  have hval10 : s / 10 ^ e < 10 := by
    rw [div_lt_iff₀ hpow]
    calc s < 10 ^ (e + 1) := hlt
    _ = 10 * 10 ^ e := by
          rw [zpow_add_one₀ (by norm_num : (10 : ℚ) ≠ 0)]
          ring
  set val := s / 10 ^ e with hv
  have hvpos : 0 < val := lt_of_lt_of_le one_pos hval1
  by_cases h1 : val < 3 / 2
  · rw [if_pos h1, lt_div_iff₀ hvpos]
    linarith
  · rw [if_neg h1]
    by_cases h2 : val < 7 / 2
    · rw [if_pos h2, lt_div_iff₀ hvpos]
      linarith
    · rw [if_neg h2, lt_div_iff₀ hvpos]
      linarith

theorem linEscalate_lt (s : ℚ) (hs : 0 < s) : s < s * linNextNiceFactor s := by
  have h := linNextNiceFactor_gt_one s hs
  nlinarith

theorem linEscalate_pos (s : ℚ) (hs : 0 < s) : 0 < s * linNextNiceFactor s :=
  mul_pos hs (lt_trans one_pos (linNextNiceFactor_gt_one s hs))

/-- Inversion of a successful escalation loop: the returned snapshot is
internally consistent, uses a positive step, and satisfies the loop's
exit condition `tickAmount ≤ maxTicks`. -/
theorem linLoop_ok (lower upper : ℚ) (maxTicks : ℤ) :
    ∀ (fuel : ℕ) (step : ℚ) (r : LinComputed), 0 < step →
      linLoop lower upper maxTicks fuel step = .ok r →
      0 < r.stepSize ∧
      r.min = (⌊lower / r.stepSize⌋ : ℚ) * r.stepSize ∧
      r.max = (⌈upper / r.stepSize⌉ : ℚ) * r.stepSize ∧
      r.range = r.max - r.min ∧
      r.tickAmount = jsRound (r.range / r.stepSize) + 1 ∧
      r.tickAmount ≤ maxTicks ∧
      r.ticks = linTicks r.tickAmount r.stepSize r.min ∧
      step ≤ r.stepSize := by
  intro fuel
  induction fuel with
  | zero =>
    intro step r hstep h
    exact absurd h (by simp [linLoop])
  | succ f ih =>
    intro step r hstep h
    simp only [linLoop] at h
    by_cases hc :
        jsRound (((⌈upper / step⌉ : ℚ) * step - (⌊lower / step⌋ : ℚ) * step) / step) + 1 ≤ maxTicks
    · rw [if_pos hc] at h
      cases h
      refine ⟨hstep, rfl, rfl, rfl, rfl, hc, rfl, le_refl _⟩
    · rw [if_neg hc] at h
      obtain ⟨p1, p2, p3, p4, p5, p6, p7, p8⟩ :=
        ih (step * linNextNiceFactor step) r (linEscalate_pos step hstep) h
      exact ⟨p1, p2, p3, p4, p5, p6, p7,
        le_trans (le_of_lt (linEscalate_lt step hstep)) p8⟩

theorem linTicks_length (ta : ℤ) (step minV : ℚ) :
    (linTicks ta step minV).length = ta.toNat := by
  simp [linTicks]

theorem linTicks_sorted (ta : ℤ) (step minV : ℚ) (hstep : 0 < step) :
    (linTicks ta step minV).Sorted (· < ·) := by
  unfold linTicks
  rw [List.Sorted, List.pairwise_map]
  apply List.Pairwise.imp ?_ (List.pairwise_lt_range _)
  intro i j hij
  have hq : (i : ℚ) < (j : ℚ) := by exact_mod_cast hij
  have := mul_lt_mul_of_pos_right hq hstep
  linarith

/-!  Claim theorems. -/

/-- C2: a `LinearScale` constructed with bounds `3` and `99` and
`maxTicks = 10`, with precision left at its default `1`, computes
successfully (step size `20`, six ticks) and `getTicks()` returns
exactly `[0, 20, 40, 60, 80, 100]`. -/
theorem linear_3_99_10_ticks :
    linCompute 3 99 1 10 = .ok ⟨20, 0, 100, 100, 6, [0, 20, 40, 60, 80, 100]⟩ ∧
      (linCompute 3 99 1 10).map linGetTicks = .ok [0, 20, 40, 60, 80, 100] ∧
      (scaleNew (some 3) (some 99) (some 10) none).1.config.precision = 1 := by
  refine ⟨by with_unfolding_all rfl, by with_unfolding_all rfl,
    by with_unfolding_all rfl⟩

/-- C1: the step-size escalation of `LinearScale.compute` strictly
increases the (positive) step on every retry, the retry count is
capped at the literal `100` loop bodies, and exhausting the cap yields
the fatal `ComputationFailed` error rather than looping. -/
theorem linear_escalation_bounded :
    (∀ s : ℚ, 0 < s → s < s * linNextNiceFactor s) ∧
    (∀ (lower upper precision : ℚ) (maxTicks : ℤ),
      linCompute lower upper precision maxTicks =
        linLoop lower upper maxTicks 100
          (max (linNearest (linNearest (upper - lower) false / ((maxTicks : ℚ) - 1)) true)
            precision)) ∧
    (∀ (lower upper : ℚ) (maxTicks : ℤ) (step : ℚ),
      linLoop lower upper maxTicks 0 step = .error .computationFailed) :=
  ⟨fun s hs => linEscalate_lt s hs, fun _ _ _ _ => rfl, fun _ _ _ _ => rfl⟩

/-- Witness for C1 at the concrete step `10`. -/
theorem linear_escalation_bounded_witness :
    (0 : ℚ) < 10 ∧ (10 : ℚ) < 10 * linNextNiceFactor 10 :=
  ⟨by norm_num, linear_escalation_bounded.1 10 (by norm_num)⟩

/-- C10: a scale constructed without a precision argument keeps the
field initialiser `precision = 1` (and only `setPrecision` ever
changes it), and a linear computation at that default precision always
returns a step size of at least `1`. -/
theorem default_precision_stepsize :
    (∀ low high maxTicks : Option ℚ,
      (scaleNew low high maxTicks none).1.config.precision = 1) ∧
    (∀ (s : ScaleState) (l h : ℚ),
      (setBoundsS l h s).config.precision = s.config.precision) ∧
    (∀ (s : ScaleState) (mt : ℚ),
      (setMaxTicksS mt s).1.config.precision = s.config.precision) ∧
    (∀ (lower upper : ℚ) (maxTicks : ℤ) (r : LinComputed),
      linCompute lower upper 1 maxTicks = .ok r → 1 ≤ r.stepSize) := by
  refine ⟨?_, ?_, ?_, ?_⟩
  · intro low high mt
    rcases low with _ | l <;> rcases high with _ | h <;> rcases mt with _ | m <;>
      simp [scaleNew, setBoundsS, setMaxTicksS, initScaleState] <;>
      split_ifs <;> rfl
  · intro s l h
    rfl
  · intro s mt
    unfold setMaxTicksS
    split_ifs <;> rfl
  · intro lower upper maxTicks r h
    simp only [linCompute] at h
    have h1 : (1 : ℚ) ≤
        max (linNearest (linNearest (upper - lower) false / ((maxTicks : ℚ) - 1)) true) 1 :=
      le_max_right _ _
    obtain ⟨_, _, _, _, _, _, _, p8⟩ :=
      linLoop_ok lower upper maxTicks 100 _ r (lt_of_lt_of_le one_pos h1) h
    linarith

/-- Witness for C10 on the `3 … 99` scale: the computed step `20` is
at least `1`. -/
theorem default_precision_stepsize_witness :
    1 ≤ (⟨20, 0, 100, 100, 6, [0, 20, 40, 60, 80, 100]⟩ : LinComputed).stepSize :=
  default_precision_stepsize.2.2.2 3 99 10 _ (by with_unfolding_all rfl)

theorem jsNormPct_out_iff (pct : ℚ) :
    (jsNormPct pct < 0 ∨ 1 < jsNormPct pct) ↔ (pct < 0 ∨ 100 < pct) := by
  unfold jsNormPct
  by_cases h : 1 < pct
  · rw [if_pos h]
    constructor
    · rintro (h1 | h1)
      · left; linarith
      · right; linarith
    · rintro (h1 | h1)
      · left; linarith
      · right; linarith
  · rw [if_neg h]
    push_neg at h
    constructor
    · rintro (h1 | h1)
      · exact Or.inl h1
      · linarith
    · rintro (h1 | h1)
      · exact Or.inl h1
      · linarith

/-- C3: on each of the three scale types, `pointAt` fails with
`InvalidArgument` exactly when the normalised percentage (values above
`1` divided by `100`) falls outside `[0, 1]`, and never returns a
value in that case. -/
theorem pointAt_invalid_iff :
    (∀ (r : LinComputed) (pct : ℚ),
      linComputePoint r pct = .error .invalidArgument ↔
        jsNormPct pct < 0 ∨ 1 < jsNormPct pct) ∧
    (∀ (R : RadComputed) (pct : ℚ),
      radialComputePoint R pct = .error .invalidArgument ↔
        jsNormPct pct < 0 ∨ 1 < jsNormPct pct) ∧
    (∀ (lg ex : ℚ → ℚ) (b : ℚ) (L : LogComputed) (pct : ℚ),
      logComputePoint lg ex b L pct = .error .invalidArgument ↔
        jsNormPct pct < 0 ∨ 1 < jsNormPct pct) := by
  refine ⟨?_, ?_, ?_⟩
  · intro r pct
    unfold linComputePoint
    rw [jsNormPct_out_iff]
    by_cases hc : pct < 0 ∨ 100 < pct
    · simp [hc]
    · simp [hc]
  · intro R pct
    unfold radialComputePoint
    rw [jsNormPct_out_iff]
    by_cases hc : pct < 0 ∨ 100 < pct
    · simp [hc]
    · simp [hc]
  · intro lg ex b L pct
    unfold logComputePoint
    by_cases hc : jsNormPct pct < 0 ∨ 1 < jsNormPct pct
    · simp [hc]
    · simp [hc]

/-- Witness for C3: the raw percentage `150` normalises to `3/2`,
outside `[0, 1]`, and the linear `pointAt` rejects it. -/
theorem pointAt_invalid_witness :
    linComputePoint ⟨20, 0, 100, 100, 6, [0, 20, 40, 60, 80, 100]⟩ 150 =
      .error .invalidArgument :=
  (pointAt_invalid_iff.1 _ 150).mpr (by norm_num [jsNormPct])

/-- Counterexample for C4: the fully computed radial scale on
`[0, 180]` (five ticks, step `45`) answers `getPct(200)` with the
percentage `10/9` even though `200` lies strictly above `max = 180`;
no `OutOfRange` error is raised. -/
theorem radial_pct_no_range_check :
    radialScaleRun 5 1 0 180 = .ok ⟨45, 0, 180, 180, 5⟩ ∧
      (⟨45, 0, 180, 180, 5⟩ : RadComputed).max < 200 ∧
      radialGetPct ⟨45, 0, 180, 180, 5⟩ 200 Ref.min = .ok (10 / 9) := by
  refine ⟨by with_unfolding_all rfl, by norm_num, by with_unfolding_all rfl⟩

/-- C4 amended: linear and logarithmic `getPct` fail with `OutOfRange`
for every value strictly outside the computed `[min, max]`, but the
radial override performs no range check and always returns the wrapped
percentage. -/
theorem pct_out_of_range :
    (∀ (r : LinComputed) (value : ℚ) (ref : Ref),
      value < r.min ∨ r.max < value →
      linComputePct r value ref = .error .outOfRange) ∧
    (∀ (lg : ℚ → ℚ) (b : ℚ) (L : LogComputed) (value : ℚ) (ref : Ref),
      value < L.min ∨ L.max < value →
      logComputePct lg b L value ref = .error .outOfRange) ∧
    (∀ (R : RadComputed) (value : ℚ) (ref : Ref),
      radialGetPct R value ref = .ok (radialComputePct R value ref)) := by
  refine ⟨?_, ?_, ?_⟩
  · intro r v ref h
    simp only [linComputePct]
    rw [if_pos h]
  · intro lg b L v ref h
    simp only [logComputePct]
    rw [if_pos h]
  · intro R v ref
    rfl

/-- Witness for C4 (amended): the linear `3 … 99` scale rejects the
out-of-range value `200`. -/
theorem pct_out_of_range_witness :
    linComputePct ⟨20, 0, 100, 100, 6, [0, 20, 40, 60, 80, 100]⟩ 200 Ref.min =
      .error .outOfRange :=
  pct_out_of_range.1 _ 200 Ref.min (Or.inr (by norm_num))

theorem jsRound_nonneg (x : ℚ) (hx : 0 ≤ x) : 0 ≤ jsRound x := by
  unfold jsRound
  rw [Int.le_floor]
  push_cast
  linarith

theorem radialNextStep_pos (step : ℚ) : 0 < radialNextStep step := by
  have hpos : ∀ j : ℕ,
      (0 : ℚ) < ([15, 30, 45, 60, 90, 120, 180, 360] : List ℚ).getD j 360 := by
    intro j
    rcases j with _ | _ | _ | _ | _ | _ | _ | _ | j <;> norm_num [List.getD]
  unfold radialNextStep
  by_cases hc : jsIndexOf [15, 30, 45, 60, 90, 120, 180, 360] step < 7
  · rw [if_pos hc]
    exact hpos _
  · rw [if_neg hc]
    norm_num

/-- Inversion of a successful radial loop: the tick amount is
non-negative and satisfies the exit condition. -/
theorem radialLoop_ok (lower upper : ℚ) (maxTicks : ℤ) (hlu : lower ≤ upper) :
    ∀ (fuel : ℕ) (step : ℚ) (R : RadComputed), 0 < step →
      radialLoop lower upper maxTicks fuel step = .ok R →
      0 ≤ R.tickAmount ∧ R.tickAmount ≤ maxTicks := by
  intro fuel
  induction fuel with
  | zero =>
    intro step R hstep h
    exact absurd h (by simp [radialLoop])
  | succ f ih =>
    intro step R hstep h
    simp only [radialLoop] at h
    have hne : step ≠ 0 := ne_of_gt hstep
    have hminle : (⌊lower / step⌋ : ℚ) * step ≤ lower := by
      calc (⌊lower / step⌋ : ℚ) * step ≤ lower / step * step :=
            mul_le_mul_of_nonneg_right (Int.floor_le _) hstep.le
      _ = lower := div_mul_cancel₀ _ hne
    have hule : upper ≤ (⌈upper / step⌉ : ℚ) * step := by
      calc upper = upper / step * step := (div_mul_cancel₀ _ hne).symm
      _ ≤ (⌈upper / step⌉ : ℚ) * step :=
            mul_le_mul_of_nonneg_right (Int.le_ceil _) hstep.le
    have hrge : (0 : ℚ) ≤ (⌈upper / step⌉ : ℚ) * step - (⌊lower / step⌋ : ℚ) * step := by
      linarith
    have hta : 0 ≤ jsRound (((⌈upper / step⌉ : ℚ) * step - (⌊lower / step⌋ : ℚ) * step) / step) :=
      jsRound_nonneg _ (div_nonneg hrge hstep.le)
    by_cases hsnap : (⌈upper / step⌉ : ℚ) * step - (⌊lower / step⌋ : ℚ) * step ≥ 355
    · rw [if_pos hsnap] at h
      by_cases hfit :
          jsRound (((⌈upper / step⌉ : ℚ) * step - (⌊lower / step⌋ : ℚ) * step) / step) + 1 - 1 ≤ maxTicks
      · rw [if_pos hfit] at h
        cases h
        refine ⟨?_, hfit⟩
        show (0 : ℤ) ≤
          jsRound (((⌈upper / step⌉ : ℚ) * step - (⌊lower / step⌋ : ℚ) * step) / step) + 1 - 1
        omega
      · rw [if_neg hfit] at h
        exact ih (radialNextStep step) R (radialNextStep_pos step) h
    · rw [if_neg hsnap] at h
      by_cases hfit :
          jsRound (((⌈upper / step⌉ : ℚ) * step - (⌊lower / step⌋ : ℚ) * step) / step) + 1 ≤ maxTicks
      · rw [if_pos hfit] at h
        cases h
        refine ⟨?_, hfit⟩
        show (0 : ℤ) ≤
          jsRound (((⌈upper / step⌉ : ℚ) * step - (⌊lower / step⌋ : ℚ) * step) / step) + 1
        omega
      · rw [if_neg hfit] at h
        exact ih (radialNextStep step) R (radialNextStep_pos step) h

/-- Inversion of a successful pruning loop: the returned list is a
`_rawTicks` result and fits under `maxTicks`. -/
theorem logPrune_ok (b lower upper : ℚ) (maxTicks : ℤ) :
    ∀ (fuel : ℕ) (prec : ℚ) (ticks : List ℚ),
      logPrune b lower upper maxTicks fuel prec = .ok ticks →
      (∃ p, ticks = logRawTicks b lower upper p) ∧
        (ticks.length : ℤ) ≤ maxTicks := by
  intro fuel
  induction fuel with
  | zero =>
    intro prec ticks h
    exact absurd h (by simp [logPrune])
  | succ f ih =>
    intro prec ticks h
    simp only [logPrune] at h
    by_cases hc : ((logRawTicks b lower upper prec).length : ℤ) ≤ maxTicks
    · rw [if_pos hc] at h
      cases h
      exact ⟨⟨prec, rfl⟩, hc⟩
    · rw [if_neg hc] at h
      exact ih _ ticks h

theorem logRawTicks_sorted (b lower upper prec : ℚ) :
    (logRawTicks b lower upper prec).Sorted (· < ·) := by
  have key : ∀ l : List ℚ, (l.dedup.insertionSort (· ≤ ·)).Sorted (· < ·) := by
    intro l
    refine sorted_le_nodup_lt _ (List.sorted_insertionSort _ _) ?_
    exact (List.perm_insertionSort _ _).nodup_iff.mpr (List.nodup_dedup l)
  exact key _

theorem logAddRange_mem (b sign : ℚ) (expMin toExp : ℤ) (minV maxV t : ℚ)
    (ht : t ∈ logAddRange b sign expMin toExp minV maxV) :
    ∃ e : ℤ, t = sign * b ^ e := by
  unfold logAddRange at ht
  rw [List.mem_filterMap] at ht
  obtain ⟨e, _, heq⟩ := ht
  dsimp only at heq
  by_cases hc : minV ≤ sign * b ^ e ∧ sign * b ^ e ≤ maxV
  · rw [if_pos hc] at heq
    injection heq with h
    exact ⟨e, h.symm⟩
  · rw [if_neg hc] at heq
    cases heq

theorem logRawTicks_mem (b lower upper prec t : ℚ)
    (ht : t ∈ logRawTicks b lower upper prec) :
    t = 0 ∨ ∃ k : ℤ, t = b ^ k ∨ t = -(b ^ k) := by
  unfold logRawTicks at ht
  dsimp only at ht
  rw [(List.perm_insertionSort (· ≤ ·) _).mem_iff, List.mem_dedup,
    List.mem_append, List.mem_append] at ht
  rcases ht with (hneg | hzero) | hpos
  · by_cases hc : (logWrap b lower upper prec).1 < 0
    · rw [if_pos hc] at hneg
      obtain ⟨e, he⟩ := logAddRange_mem _ _ _ _ _ _ _ hneg
      exact Or.inr ⟨e, Or.inr (by rw [he]; ring)⟩
    · rw [if_neg hc] at hneg
      cases hneg
  · by_cases hc : (lower ≤ 0 ∧ 0 ≤ upper) ∨ min |lower| |upper| < prec
    · rw [if_pos hc] at hzero
      simp at hzero
      exact Or.inl hzero
    · rw [if_neg hc] at hzero
      cases hzero
  · by_cases hc : 0 < (logWrap b lower upper prec).2
    · rw [if_pos hc] at hpos
      obtain ⟨e, he⟩ := logAddRange_mem _ _ _ _ _ _ _ hpos
      exact Or.inr ⟨e, Or.inl (by rw [he]; ring)⟩
    · rw [if_neg hc] at hpos
      cases hpos

/-- Counterexample for C5: `new RadialScale(5, 1, -359, -310)`
computes successfully (step `15`, `min = -360`), but the modulo-360
reduction in `computeTicks` maps the tick `-360` to `0`, so the
produced tick sequence `[0, -345, -330, -315, -300]` is not
ascending. -/
theorem radial_ticks_not_ascending :
    radialScaleRun 5 1 (-359) (-310) = .ok ⟨15, -360, -300, 60, 5⟩ ∧
      radialComputeTicks ⟨15, -360, -300, 60, 5⟩ = [0, -345, -330, -315, -300] ∧
      ¬ ([0, -345, -330, -315, -300] : List ℚ).Sorted (· < ·) := by
  refine ⟨by with_unfolding_all rfl, by with_unfolding_all rfl, ?_⟩
  intro h
  have h2 : (0 : ℚ) < -345 :=
    (List.pairwise_cons.mp h).1 (-345) (by simp)
  norm_num at h2

/-- C5 amended: for every successfully computed linear and logarithmic
scale the tick sequence is strictly ascending with no duplicates and
`tickAmount = ticks.length ≤ maxTicks`; for radial scales
`tickAmount = ticks.length ≤ maxTicks` still holds, but the modulo-360
reduction can reorder or duplicate the produced ticks. -/
theorem ticks_monotone_count :
    (∀ (lower upper precision : ℚ) (maxTicks : ℤ) (r : LinComputed),
      lower ≤ upper → 0 < precision →
      linCompute lower upper precision maxTicks = .ok r →
      r.ticks.Sorted (· < ·) ∧ r.ticks.Nodup ∧
        (r.ticks.length : ℤ) = r.tickAmount ∧ r.tickAmount ≤ maxTicks) ∧
    (∀ (b lower upper precision : ℚ) (maxTicks : ℤ) (L : LogComputed),
      logCompute b lower upper precision maxTicks = .ok L →
      L.ticks.Sorted (· < ·) ∧ L.ticks.Nodup ∧
        (L.ticks.length : ℤ) = L.tickAmount ∧ L.tickAmount ≤ maxTicks) ∧
    (∀ (lower upper precision : ℚ) (maxTicks : ℤ) (R : RadComputed),
      lower ≤ upper → 0 < precision →
      radialCompute lower upper precision maxTicks = .ok R →
      ((radialComputeTicks R).length : ℤ) = R.tickAmount ∧
        R.tickAmount ≤ maxTicks) := by
  refine ⟨?_, ?_, ?_⟩
  · intro lower upper precision maxTicks r hlu hp h
    simp only [linCompute] at h
    have hstep0 : (0 : ℚ) <
        max (linNearest (linNearest (upper - lower) false / ((maxTicks : ℚ) - 1)) true)
          precision :=
      lt_of_lt_of_le hp (le_max_right _ _)
    obtain ⟨hpos, hmin, hmax, hrange, hta, hle, hticks, _⟩ :=
      linLoop_ok lower upper maxTicks 100 _ r hstep0 h
    have hne : r.stepSize ≠ 0 := ne_of_gt hpos
    have hminle : r.min ≤ lower := by
      rw [hmin]
      calc (⌊lower / r.stepSize⌋ : ℚ) * r.stepSize ≤ lower / r.stepSize * r.stepSize :=
            mul_le_mul_of_nonneg_right (Int.floor_le _) hpos.le
      _ = lower := div_mul_cancel₀ _ hne
    have hule : upper ≤ r.max := by
      rw [hmax]
      calc upper = upper / r.stepSize * r.stepSize := (div_mul_cancel₀ _ hne).symm
      _ ≤ (⌈upper / r.stepSize⌉ : ℚ) * r.stepSize :=
            mul_le_mul_of_nonneg_right (Int.le_ceil _) hpos.le
    have hrge : (0 : ℚ) ≤ r.range := by
      rw [hrange]
      linarith
    have hround : 0 ≤ jsRound (r.range / r.stepSize) :=
      jsRound_nonneg _ (div_nonneg hrge hpos.le)
    have htapos : 0 ≤ r.tickAmount := by
      rw [hta]
      omega
    have hsorted : r.ticks.Sorted (· < ·) := by
      rw [hticks]
      exact linTicks_sorted _ _ _ hpos
    refine ⟨hsorted, hsorted.imp ne_of_lt, ?_, hle⟩
    rw [hticks, linTicks_length]
    exact_mod_cast Int.toNat_of_nonneg htapos
  · intro b lower upper precision maxTicks L h
    simp only [logCompute] at h
    rcases hp : logPrune b lower upper maxTicks 100 precision with e | tks <;>
      rw [hp] at h <;> simp [Except.map] at h
    obtain ⟨⟨p, hraw⟩, hlen⟩ := logPrune_ok b lower upper maxTicks 100 precision tks hp
    have hsorted : tks.Sorted (· < ·) := by
      rw [hraw]
      exact logRawTicks_sorted b lower upper p
    rw [← h]
    exact ⟨hsorted, hsorted.imp ne_of_lt, rfl, hlen⟩
  · intro lower upper precision maxTicks R hlu hp h
    simp only [radialCompute] at h
    have hstep0 : (0 : ℚ) <
        max (radialNearestDeg (min (upper - lower) 360 / ((maxTicks : ℚ) - 1))) precision :=
      lt_of_lt_of_le hp (le_max_right _ _)
    obtain ⟨h0, hle⟩ := radialLoop_ok lower upper maxTicks hlu 100 _ R hstep0 h
    refine ⟨?_, hle⟩
    unfold radialComputeTicks
    rw [List.length_map, linTicks_length]
    exact_mod_cast Int.toNat_of_nonneg h0

/-- Witness for C5 (amended) on the linear `3 … 99` scale. -/
theorem ticks_monotone_count_witness :
    ([0, 20, 40, 60, 80, 100] : List ℚ).Sorted (· < ·) ∧
      ([0, 20, 40, 60, 80, 100] : List ℚ).Nodup ∧
      (([0, 20, 40, 60, 80, 100] : List ℚ).length : ℤ) =
        (⟨20, 0, 100, 100, 6, [0, 20, 40, 60, 80, 100]⟩ : LinComputed).tickAmount ∧
      (⟨20, 0, 100, 100, 6, [0, 20, 40, 60, 80, 100]⟩ : LinComputed).tickAmount ≤ 10 :=
  ticks_monotone_count.1 3 99 1 10 ⟨20, 0, 100, 100, 6, [0, 20, 40, 60, 80, 100]⟩
    (by norm_num) (by norm_num) (by with_unfolding_all rfl)

theorem display8_bounds (s : ℚ) (h1 : -360 < s) (h2 : s < 360) :
    -360 ≤ display8 s ∧ display8 s ≤ 360 := by
  have hpow : ((10 : ℚ) ^ 8) = 100000000 := by norm_num
  unfold display8 jsRound
  constructor
  · have hle : (-36000000000 : ℤ) ≤ ⌊s * 10 ^ 8 + 1 / 2⌋ := by
      rw [Int.le_floor]
      push_cast
      nlinarith
    calc (-360 : ℚ) = (-36000000000 : ℚ) / 10 ^ 8 := by norm_num
    _ ≤ (⌊s * 10 ^ 8 + 1 / 2⌋ : ℚ) / 10 ^ 8 :=
          (div_le_div_iff_of_pos_right (by norm_num : (0 : ℚ) < 10 ^ 8)).mpr
            (by exact_mod_cast hle)
  · have hle : ⌊s * 10 ^ 8 + 1 / 2⌋ ≤ (36000000000 : ℤ) := by
      have hlt : ⌊s * 10 ^ 8 + 1 / 2⌋ < (36000000001 : ℤ) := by
        rw [Int.floor_lt]
        push_cast
        nlinarith
      omega
    calc (⌊s * 10 ^ 8 + 1 / 2⌋ : ℚ) / 10 ^ 8 ≤ (36000000000 : ℚ) / 10 ^ 8 :=
          (div_le_div_iff_of_pos_right (by norm_num : (0 : ℚ) < 10 ^ 8)).mpr
            (by exact_mod_cast hle)
    _ = 360 := by norm_num

/-- Counterexample for C6: `new RadialScale(5, 1, -90, 90)` computes
successfully, and `getTicks()` returns `[-90, -45, 0, 45, 90]`, whose
first element lies outside `[0, 360)`. -/
theorem radial_negative_tick :
    radialScaleRun 5 1 (-90) 90 = .ok ⟨45, -90, 90, 180, 5⟩ ∧
      radialGetTicks ⟨45, -90, 90, 180, 5⟩ = [-90, -45, 0, 45, 90] ∧
      ¬ (0 ≤ (-90 : ℚ)) := by
  refine ⟨by with_unfolding_all rfl, by with_unfolding_all rfl, by norm_num⟩

/-- C6 amended: `getPointAt` results are reduced into `[0, 360)` by
the double modulo, but ticks are reduced by the signed single `% 360`,
which only confines them to the open interval `(-360, 360)` (and the
displayed ticks to `[-360, 360]`); with negative normalised bounds
they can be negative. -/
theorem radial_output_ranges :
    (∀ (R : RadComputed) (pct v : ℚ),
      radialComputePoint R pct = .ok v → 0 ≤ v ∧ v < 360) ∧
    (∀ (R : RadComputed) (t : ℚ),
      t ∈ radialComputeTicks R → -360 < t ∧ t < 360) ∧
    (∀ (R : RadComputed) (t : ℚ),
      t ∈ radialGetTicks R → -360 ≤ t ∧ t ≤ 360) := by
  have h360 : (0 : ℚ) < 360 := by norm_num
  refine ⟨?_, ?_, ?_⟩
  · intro R pct v h
    unfold radialComputePoint at h
    by_cases hc : pct < 0 ∨ 100 < pct
    · rw [if_pos hc] at h
      cases h
    · rw [if_neg hc] at h
      injection h with h
      subst h
      have hy : -360 < jsMod (R.range * jsNormPct pct + R.min) 360 :=
        neg_lt_jsMod _ _ h360
      constructor
      · exact jsMod_nonneg _ _ h360 (by linarith)
      · exact jsMod_lt _ _ h360
  · intro R t ht
    unfold radialComputeTicks at ht
    rw [List.mem_map] at ht
    obtain ⟨x, _, hx⟩ := ht
    subst hx
    exact ⟨neg_lt_jsMod _ _ h360, jsMod_lt _ _ h360⟩
  · intro R t ht
    unfold radialGetTicks at ht
    rw [List.mem_map] at ht
    obtain ⟨x, hxm, hx⟩ := ht
    subst hx
    unfold radialComputeTicks at hxm
    rw [List.mem_map] at hxm
    obtain ⟨y, _, hy⟩ := hxm
    subst hy
    exact display8_bounds _ (neg_lt_jsMod _ _ h360) (jsMod_lt _ _ h360)

/-- Witness for C6 (amended): the computed point at `50%` of the
`[0, 180]` radial scale is `90`, inside `[0, 360)`. -/
theorem radial_output_ranges_witness :
    0 ≤ (90 : ℚ) ∧ (90 : ℚ) < 360 :=
  radial_output_ranges.1 ⟨45, 0, 180, 180, 5⟩ (1 / 2) 90
    (by with_unfolding_all rfl)

/-- Counterexample for C7: `new LogarithmicScale(0.1, 1, 10, 0.1, 3)`
computes the internal ticks `[1/9, 1/3, 1]` (exact powers of `3`), but
`getTicks()` rounds them to eight decimals, and the returned value
`0.11111111` is not `±3^k` for any integer `k`. -/
theorem log_display_tick_not_power :
    (logCompute 3 (1 / 10) 1 (1 / 10) 10).map logGetTicks =
      .ok [11111111 / 100000000, 33333333 / 100000000, 1] ∧
    ¬ ∃ k : ℤ, (11111111 / 100000000 : ℚ) = 3 ^ k ∨
        (11111111 / 100000000 : ℚ) = -(3 ^ k) := by
  constructor
  · with_unfolding_all rfl
  · rintro ⟨k, hk | hk⟩
    · rcases k with n | n
      · rw [show (Int.ofNat n) = (n : ℤ) from rfl, zpow_natCast] at hk
        have h1 : (1 : ℚ) ≤ 3 ^ n := one_le_pow₀ (by norm_num)
        rw [← hk] at h1
        norm_num at h1
      · rw [zpow_negSucc] at hk
        have h3 : (0 : ℚ) < (3 : ℚ) ^ (n + 1) := by positivity
        field_simp at hk
        have hcast : ((11111111 * 3 ^ (n + 1) : ℕ) : ℚ) = ((100000000 : ℕ) : ℚ) := by
          push_cast
          linarith
        have hnat : (11111111 * 3 ^ (n + 1) : ℕ) = 100000000 :=
          Nat.cast_injective hcast
        have hdvd : 3 ∣ (11111111 * 3 ^ (n + 1) : ℕ) :=
          Dvd.dvd.mul_left (dvd_pow_self 3 (Nat.succ_ne_zero n)) _
        rw [hnat] at hdvd
        norm_num at hdvd
    · have hpos : (0 : ℚ) < 11111111 / 100000000 := by norm_num
      have h3 : (0 : ℚ) < 3 ^ k := zpow_pos (by norm_num) k
      rw [hk] at hpos
      linarith

/-- C7 amended: every internal tick of a successfully computed
logarithmic scale is `0` or `±base^k` for an integer `k`; the
eight-decimal display rounding applied by `getTicks` can however
return values that are not exact powers. -/
theorem log_ticks_powers (b lower upper precision : ℚ) (maxTicks : ℤ)
    (L : LogComputed)
    (h : logCompute b lower upper precision maxTicks = .ok L) :
    ∀ t ∈ L.ticks, t = 0 ∨ ∃ k : ℤ, t = b ^ k ∨ t = -(b ^ k) := by
  simp only [logCompute] at h
  rcases hp : logPrune b lower upper maxTicks 100 precision with e | tks <;>
    rw [hp] at h <;> simp [Except.map] at h
  obtain ⟨⟨p, hraw⟩, _⟩ := logPrune_ok b lower upper maxTicks 100 precision tks hp
  intro t ht
  rw [← h] at ht
  exact logRawTicks_mem b lower upper p t (by rw [← hraw]; exact ht)

/-- Witness for C7 (amended): the tick `1/9` of the base-3 scale is an
exact power of the base. -/
theorem log_ticks_powers_witness :
    (1 / 9 : ℚ) = 0 ∨ ∃ k : ℤ, (1 / 9 : ℚ) = 3 ^ k ∨ (1 / 9 : ℚ) = -(3 ^ k) :=
  log_ticks_powers 3 (1 / 10) 1 (1 / 10) 10 ⟨[1 / 9, 1 / 3, 1], 3, 1 / 9, 1, 8 / 9⟩
    (by with_unfolding_all rfl) (1 / 9) (by simp)

theorem jsIndexOf_found (l : List ℚ) (x : ℚ) (h : jsIndexOf l x ≠ -1) :
    0 ≤ jsIndexOf l x ∧ jsIndexOf l x ≤ (l.length : ℤ) - 1 := by
  unfold jsIndexOf at h ⊢
  by_cases hm : x ∈ l
  · rw [if_pos hm]
    have hlt : List.indexOf x l < l.length := List.indexOf_lt_length.mpr hm
    constructor
    · exact_mod_cast Nat.zero_le _
    · have : (List.indexOf x l : ℤ) < (l.length : ℤ) := by exact_mod_cast hlt
      omega
  · rw [if_neg hm] at h
    exact absurd rfl h

/-- C9: on every scale type, `getPct(v, max)` equals
`1 - getPct(v, min)` whenever the value is accepted. -/
theorem pct_reference_symmetry :
    (∀ (r : LinComputed) (v p : ℚ),
      linComputePct r v Ref.min = .ok p →
      linComputePct r v Ref.max = .ok (1 - p)) ∧
    (∀ (R : RadComputed) (v : ℚ),
      radialComputePct R v Ref.max = 1 - radialComputePct R v Ref.min) ∧
    (∀ (lg : ℚ → ℚ) (b : ℚ) (L : LogComputed) (v p : ℚ),
      logComputePct lg b L v Ref.min = .ok p →
      logComputePct lg b L v Ref.max = .ok (1 - p)) := by
  refine ⟨?_, ?_, ?_⟩
  · intro r v p h
    unfold linComputePct at h ⊢
    by_cases hc : v < r.min ∨ r.max < v
    · rw [if_pos hc] at h
      cases h
    · rw [if_neg hc] at h ⊢
      have h' : Except.ok ((v - r.min) / r.range) = Except.ok p := h
      injection h' with h'
      show Except.ok (1 - (v - r.min) / r.range) = Except.ok (1 - p)
      rw [h']
  · intro R v
    rfl
  · intro lg b L v p h
    unfold logComputePct at h ⊢
    dsimp only at h ⊢
    by_cases hc1 : v < L.min ∨ L.max < v
    · rw [if_pos hc1] at h
      cases h
    · rw [if_neg hc1] at h ⊢
      by_cases hc2 : jsIndexOf L.ticks 0 ≠ -1 ∧ v = 0
      · rw [if_pos hc2] at h ⊢
        obtain ⟨hz, hlez⟩ := jsIndexOf_found L.ticks 0 hc2.1
        set z : ℤ := jsIndexOf L.ticks 0 with hzdef
        set x : ℚ := (z : ℚ) / ((L.ticks.length : ℚ) - 1) with hxdef
        have hx0 : 0 ≤ x := by
          rw [hxdef]
          apply div_nonneg
          · exact_mod_cast hz
          · have : (z : ℚ) ≤ (L.ticks.length : ℚ) - 1 := by
              exact_mod_cast hlez
            linarith [show (0 : ℚ) ≤ (z : ℚ) from by exact_mod_cast hz]
        have hx1 : x ≤ 1 := by
          rw [hxdef]
          by_cases hn : ((L.ticks.length : ℚ) - 1) = 0
          · rw [hn, div_zero]
            norm_num
          · have hle : (z : ℚ) ≤ (L.ticks.length : ℚ) - 1 := by
              exact_mod_cast hlez
            have hz0 : (0 : ℚ) ≤ (z : ℚ) := by exact_mod_cast hz
            have hpos : 0 < (L.ticks.length : ℚ) - 1 := by
              rcases lt_or_eq_of_le (le_trans hz0 hle) with hlt | heq
              · exact hlt
              · exact absurd heq.symm hn
            rw [div_le_one hpos]
            linarith
        have h' : Except.ok |(0 : ℚ) - x| = Except.ok p := h
        injection h' with h'
        show Except.ok |(1 : ℚ) - x| = Except.ok (1 - p)
        have e1 : |(0 : ℚ) - x| = x := by
          rw [zero_sub, abs_neg, abs_of_nonneg hx0]
        have e2 : |(1 : ℚ) - x| = 1 - x := abs_of_nonneg (by linarith)
        rw [e2, ← h', e1]
      · rw [if_neg hc2] at h ⊢
        injection h with h
        refine congrArg Except.ok ?_
        rw [if_neg (by decide : ¬(Ref.min = Ref.max))] at h
        rw [if_pos (show Ref.max = Ref.max from rfl), h]

/-- Witness for C9 on the linear `3 … 99` scale at the value `50`. -/
theorem pct_reference_symmetry_witness :
    linComputePct ⟨20, 0, 100, 100, 6, [0, 20, 40, 60, 80, 100]⟩ 50 Ref.max =
      .ok (1 - 1 / 2) :=
  pct_reference_symmetry.1 ⟨20, 0, 100, 100, 6, [0, 20, 40, 60, 80, 100]⟩ 50 (1 / 2)
    (by with_unfolding_all rfl)

/-- C8: in any reachable state, a failing `run()` (whether `compute`
returned `false` or threw) leaves the scale not ready, every query
accessor then fails with `NotReady`, and a later successful `run()`
restores readiness; the partially mutated snapshot is never
observable. -/
theorem failed_run_not_ready (cf : ScaleConfig → ComputeResult) (s : ScaleState)
    (hreach : Reachable cf s) :
    ∀ (s' : ScaleState) (e : ScaleErr),
      scaleRun cf s = (s', some e) →
      s'.is = false ∧
      getMinimumS s' = .error .notReady ∧
      getMaximumS s' = .error .notReady ∧
      getExtremaS s' = .error .notReady ∧
      getStepSizeS s' = .error .notReady ∧
      getTickAmountS s' = .error .notReady ∧
      getRangeS s' = .error .notReady ∧
      getTicksS s' = .error .notReady ∧
      getTicksReverseS s' = .error .notReady ∧
      (∀ cp pct, getPointAtS cp s' pct = .error .notReady) ∧
      (∀ cp v ref, getPctS cp s' v ref = .error .notReady) ∧
      (∀ s2 : ScaleState, scaleRun cf s' = (s2, none) → s2.is = true) := by
  intro s' e h
  have hinv := reachable_inv cf s hreach
  have hfalse : s'.is = false := by
    unfold scaleRun at h
    rcases hc : cf s.config with c | _ | f <;> rw [hc] at h
    · cases h
    · cases h
      rfl
    · cases h
      rcases hb : s.is with _ | _
      · rfl
      · obtain ⟨c, hcc⟩ := hinv hb
        rw [hcc] at hc
        cases hc
  have hnot : ¬(s'.is = true) := by
    simp [hfalse]
  refine ⟨hfalse, ?_, ?_, ?_, ?_, ?_, ?_, ?_, ?_, ?_, ?_, ?_⟩
  · unfold getMinimumS
    rw [if_neg hnot]
  · unfold getMaximumS
    rw [if_neg hnot]
  · unfold getExtremaS
    rw [if_neg hnot]
  · unfold getStepSizeS
    rw [if_neg hnot]
  · unfold getTickAmountS
    rw [if_neg hnot]
  · unfold getRangeS
    rw [if_neg hnot]
  · unfold getTicksS
    rw [if_neg hnot]
  · unfold getTicksReverseS
    rw [if_neg hnot]
  · intro cp pct
    unfold getPointAtS
    rw [if_neg hnot]
  · intro cp v ref
    unfold getPctS
    rw [if_neg hnot]
  · intro s2 h2
    unfold scaleRun at h2
    rcases hc : cf s'.config with c | _ | f <;> rw [hc] at h2
    · cases h2
      rfl
    · cases h2
    · cases h2

/-- Witness for C8: a fresh scale whose `compute` throws is left not
ready by `run()`, and `getTicks` then fails with `NotReady`. -/
theorem failed_run_not_ready_witness :
    (scaleRun (fun _ => .threw id) initScaleState).1.is = false ∧
      getTicksS (scaleRun (fun _ => .threw id) initScaleState).1 =
        .error .notReady := by
  have h := failed_run_not_ready (fun _ => .threw id) initScaleState
    Reachable.init (scaleRun (fun _ => .threw id) initScaleState).1
    .computationFailed (by rfl)
  exact ⟨h.1, h.2.2.2.2.2.2.2.1⟩
